import Mathlib

/-!
Shallow embedding of `aiida_pseudo/groups/family/pseudo.py`
(class `PseudoPotentialFamily`): directory parsing
(`parse_pseudos_from_directory`), family creation from a directory
(`create_from_folder`), membership management (`add_nodes`, the lazily
initialised `pseudos` cache, `elements`) and element lookup
(`get_pseudo`, `get_pseudos`), together with models of the backing
store primitives the file uses (`QueryBuilder` queries, group label
lookup, node storage).

State that the Python code mutates (the `_pseudos` cache, the group
membership, the backing store) is threaded explicitly; an operation
that raises returns the state as it stands at the raise site, so that
partial mutation before an exception stays observable.
-/

/-- Tags for the concrete Python classes of pseudo-potential data nodes.
`pseudoPotentialData` stands for `PseudoPotentialData`; `upfData` for its
subclass `UpfData`; `upfDataSub` for a further strict subclass of
`UpfData`. Only the identity of a tag matters for the code under study:
`add_nodes` compares classes with `type(node) is not self._pseudo_type`. -/
inductive PClass where
  | pseudoPotentialData
  | upfData
  | upfDataSub
deriving DecidableEq

/-- Python `issubclass` on the modelled class hierarchy
(`UpfData` is a subclass of `PseudoPotentialData`, `upfDataSub` a
subclass of `UpfData`; `issubclass` is reflexive). -/
def subclassOf (a b : PClass) : Bool :=
  a == b ||
  (a == PClass.upfData && b == PClass.pseudoPotentialData) ||
  (a == PClass.upfDataSub && b == PClass.upfData) ||
  (a == PClass.upfDataSub && b == PClass.pseudoPotentialData)

/-- Python `str(cls)` for a class tag, used only inside error messages. -/
def pseudoTypeName : PClass → String
  | PClass.pseudoPotentialData => "PseudoPotentialData"
  | PClass.upfData => "UpfData"
  | PClass.upfDataSub => "UpfDataSub"

/-- A pseudo-potential data node (an instance of `PseudoPotentialData` or
a subclass). `cls` is its concrete Python class, `element` the parsed
element attribute (`None` when the parser left it unset), `md5` the
content checksum attribute, `nid` the node identity (Python object or
database identity, used to tell two records with equal attributes
apart), `is_stored` whether the node is persisted. -/
structure PseudoPotentialData where
  cls : PClass
  element : Option String
  md5 : String
  nid : Nat
  is_stored : Bool
deriving DecidableEq

/-- One entry of a directory tree: a regular file with contents, or a
subdirectory with named entries (the result of `os.listdir` plus
`os.path.isdir` / `os.path.isfile` classification). -/
inductive FSEntry where
  | file (content : String)
  | dir (entries : List (String × FSEntry))

/-- Output of the external pseudo-data constructor
`cls._pseudo_type(handle, filename=filename)`: the element attribute it
resolved (possibly `None`), the md5 checksum of the content, and the
identity of the freshly created node. -/
structure CtorOut where
  element : Option String
  md5 : String
  nid : Nat
deriving DecidableEq

/-- The external record constructor, taking the file content and the
filename; `Except.error msg` models it raising `ParsingError(msg)`.
The constructed instance always has the exact class the family accepts
and is unstored, which `processFile` below records. -/
def Ctor := String → String → Except String CtorOut

/-- Errors raised by the embedded code.  Python raises `ValueError`,
`ParsingError`, `TypeError`, `ModificationNotAllowed` and
`RuntimeError` with distinguishing messages; the spec names the kinds
`InvalidInputError` (`notADirectory`, `notAFile`, `noParsedPseudos`,
`duplicateElements`, `bothKeywords`, `neitherKeyword`,
`elementsNotListOrTuple`), `ParsingError` (`parsingError`),
`AlreadyExistsError` (`alreadyExists`), `ModificationNotAllowedError`
(`modificationNotAllowed`), `TypeError` (`typeError`),
`DuplicateElementError` (`duplicateElement`), `NotFoundError`
(`notFound`) and `LookupConsistencyError` (`multipleMatches`).  Each
constructor corresponds to exactly one raise site of the source file. -/
inductive Err where
  | notADirectory (dirpath : String)
  | notAFile (dirpath : String)
  | parsingError (msg : String)
  | noParsedPseudos (dirpath : String)
  | duplicateElements (dirpath : String)
  | alreadyExists (label : String)
  | modificationNotAllowed
  | typeError
  | duplicateElement (element : Option String)
  | notFound (label : String) (element : String)
  | multipleMatches (label : String) (element : String)
  | bothKeywords
  | neitherKeyword
  | elementsNotListOrTuple
  | notIterable
deriving DecidableEq

/-- Python `[A-Za-z]` on an ASCII character. -/
def isLetterAZ (c : Char) : Bool :=
  (Char.ofNat 65 ≤ c && c ≤ Char.ofNat 90) || (Char.ofNat 97 ≤ c && c ≤ Char.ofNat 122)

/-- Python `\w` (word character) restricted to ASCII: a letter, a digit
or an underscore. Filenames of pseudo-potential files are ASCII. -/
def isWordChar (c : Char) : Bool :=
  isLetterAZ c || (Char.ofNat 48 ≤ c && c ≤ Char.ofNat 57) || c == Char.ofNat 95

/-- The element-recovery pattern of `parse_pseudos_from_directory`:
Python `re.search(r'^([A-Za-z]{1,2})\.\w+', filename)` followed by
`match.group(1)`.  The `^` anchor pins the match to the start of the
filename; the greedy `{1,2}` tries two leading letters first and backs
off to one; `\.` requires a literal dot; `\w+` requires at least one
word character after it.  Returns the captured group when the pattern
matches, `none` when `re.search` returns `None`. -/
def recoverElement (filename : String) : Option String :=
  match filename.toList with
  | c1 :: c2 :: c3 :: c4 :: _ =>
      if isLetterAZ c1 && isLetterAZ c2 && c3 == Char.ofNat 46 && isWordChar c4 then
        some (String.mk [c1, c2])
      else if isLetterAZ c1 && c2 == Char.ofNat 46 && isWordChar c3 then
        some (String.mk [c1])
      else none
  | [c1, c2, c3] =>
      if isLetterAZ c1 && c2 == Char.ofNat 46 && isWordChar c3 then
        some (String.mk [c1])
      else none
  | _ => none

/-- The message of the `ParsingError` raised when neither the
constructor nor the filename yields an element.  In the source only the
first of the three adjacent string literals has an `f` prefix, so the
`\x7bfilename\x7d` placeholder in the second literal is NOT
interpolated: the raised message contains the placeholder text
literally and does not depend on the filename. -/
def noElementMessage (pt : PClass) : String :=
  "`" ++ pseudoTypeName pt ++
  "` constructor did not define the element and could not parse a valid " ++
  "element symbol from the filename `\x7bfilename\x7d` either. It should have the format " ++
  "`ELEMENT.EXTENSION`"

/-- The body of the per-file loop of `parse_pseudos_from_directory`:
construct the node from the file content, wrap a constructor
`ParsingError` naming the file path, and recover a missing element from
the filename or fail. -/
def processFile (pt : PClass) (ctor : Ctor) (dirpath filename content : String) :
    Except Err PseudoPotentialData :=
  match ctor content filename with
  | Except.error msg =>
      Except.error (Err.parsingError
        ("failed to parse `" ++ (dirpath ++ "/" ++ filename) ++ "`: " ++ msg))
  | Except.ok out =>
      let pseudo : PseudoPotentialData :=
        { cls := pt, element := out.element, md5 := out.md5, nid := out.nid, is_stored := false }
      match pseudo.element with
      | some _ => Except.ok pseudo
      | none =>
          match recoverElement filename with
          | some sym => Except.ok { pseudo with element := some sym }
          | none => Except.error (Err.parsingError (noElementMessage pt))

/-- The `for filename in os.listdir(dirpath)` loop of
`parse_pseudos_from_directory`: every entry must be a regular file
(first offender raises), each file is parsed in turn, results are
collected in order. -/
def parseEntries (pt : PClass) (ctor : Ctor) (dirpath : String) :
    List (String × FSEntry) → Except Err (List PseudoPotentialData)
  | [] => Except.ok []
  | (_, FSEntry.dir _) :: _ => Except.error (Err.notAFile dirpath)
  | (filename, FSEntry.file content) :: rest =>
      match processFile pt ctor dirpath filename content with
      | Except.error e => Except.error e
      | Except.ok p =>
          match parseEntries pt ctor dirpath rest with
          | Except.error e => Except.error e
          | Except.ok ps => Except.ok (p :: ps)

/-- The single-level descent of `parse_pseudos_from_directory`: when the
directory holds exactly one entry and that entry is itself a directory,
replace `dirpath` and its contents by that entry. -/
def resolveLevel (dirpath : String) (entries : List (String × FSEntry)) :
    String × List (String × FSEntry) :=
  match entries with
  | [(name, FSEntry.dir inner)] => (dirpath ++ "/" ++ name, inner)
  | _ => (dirpath, entries)

/-- The tail of `parse_pseudos_from_directory` after the level has been
resolved: run the per-file loop, reject an empty parse
(`if not pseudos`), reject duplicate elements (`len(pseudos) !=
len(set(pseudo.element for pseudo in pseudos))`, the set size being the
number of distinct elements). -/
def parseResolved (pt : PClass) (ctor : Ctor) (dirpath : String)
    (entries : List (String × FSEntry)) : Except Err (List PseudoPotentialData) :=
  match parseEntries pt ctor dirpath entries with
  | Except.error e => Except.error e
  | Except.ok pseudos =>
      if pseudos = [] then Except.error (Err.noParsedPseudos dirpath)
      else if pseudos.length ≠ (pseudos.map (fun p => p.element)).dedup.length then
        Except.error (Err.duplicateElements dirpath)
      else Except.ok pseudos

/-- `PseudoPotentialFamily.parse_pseudos_from_directory(dirpath)`:
`dirpath` must be a directory, a sole subdirectory entry is descended
into once, then the resolved level is parsed. -/
def parse_pseudos_from_directory (pt : PClass) (ctor : Ctor) (dirpath : String)
    (fs : FSEntry) : Except Err (List PseudoPotentialData) :=
  match fs with
  | FSEntry.file _ => Except.error (Err.notADirectory dirpath)
  | FSEntry.dir entries =>
      let r := resolveLevel dirpath entries
      parseResolved pt ctor r.1 r.2

/-- Python `dict` assignment `d[k] = v` on an association list: replace
the value at an existing key in place, append a new key at the end. -/
def dictInsert {κ α : Type} [DecidableEq κ] (k : κ) (v : α) :
    List (κ × α) → List (κ × α)
  | [] => [(k, v)]
  | (k1, v1) :: t => if k1 = k then (k, v) :: t else (k1, v1) :: dictInsert k v t

/-- Python `dict` lookup `d[k]` (as an `Option`). -/
def dictFind {κ α : Type} [DecidableEq κ] : List (κ × α) → κ → Option α
  | [], _ => none
  | (k1, v1) :: t, k => if k1 = k then some v1 else dictFind t k

/-- Python `list(d.keys())`. -/
def dictKeys {κ α : Type} (d : List (κ × α)) : List κ :=
  d.map (fun kv => kv.1)

/-- Python `d.update(entries)`: insert every entry of `entries` into `d`
in order. -/
def dictUpdate {κ α : Type} [DecidableEq κ] (d entries : List (κ × α)) : List (κ × α) :=
  entries.foldl (fun acc kv => dictInsert kv.1 kv.2 acc) d

/-- The dict comprehension
`{pseudo.element: pseudo for pseudo in self.nodes}` that populates the
`_pseudos` cache on first access. -/
def dictOfNodes (nodes : List PseudoPotentialData) : List (Option String × PseudoPotentialData) :=
  nodes.foldl (fun d p => dictInsert p.element p d) []

/-- A `PseudoPotentialFamily` instance together with the slice of
backing-store state that belongs to it: `label` and `description` are
the group attributes, `pseudoType` the `_pseudo_type` class attribute
of the concrete family class, `is_stored` whether the group is
persisted, `cache` the lazily initialised `_pseudos` attribute
(`none` models the initial `None`), `storedNodes` the group membership
held by the backing store (`self.nodes`). -/
structure Family where
  label : String
  description : String
  pseudoType : PClass
  is_stored : Bool
  cache : Option (List (Option String × PseudoPotentialData))
  storedNodes : List PseudoPotentialData
deriving DecidableEq

/-- The value of the `pseudos` property: the cache when it is
populated, otherwise the dict built from the stored group membership. -/
def pseudosDict (fam : Family) : List (Option String × PseudoPotentialData) :=
  match fam.cache with
  | some d => d
  | none => dictOfNodes fam.storedNodes

/-- The state effect of reading the `pseudos` property: after a first
access the `_pseudos` attribute is populated. -/
def forcePseudos (fam : Family) : Family :=
  { fam with cache := some (pseudosDict fam) }

/-- The `elements` property: `list(self.pseudos.keys())`. -/
def elementsOf (fam : Family) : List (Option String) :=
  dictKeys (pseudosDict fam)

/-- The duplicate-check loop of `add_nodes`: walk the batch, raise
`ValueError` (the `DuplicateElementError` of the spec) when a
candidate element is already a key of the CURRENT membership dict, and
build the local `pseudos` dict keyed on element.  The membership list
`current` is read from the cache, which is not updated while the loop
runs, so candidates are never compared with each other. -/
def checkDuplicates (current : List (Option String)) :
    List PseudoPotentialData → List (Option String × PseudoPotentialData) →
    Except Err (List (Option String × PseudoPotentialData))
  | [], acc => Except.ok acc
  | p :: rest, acc =>
      if p.element ∈ current then Except.error (Err.duplicateElement p.element)
      else checkDuplicates current rest (dictInsert p.element p acc)

/-- `PseudoPotentialFamily.add_nodes(nodes)` for a batch given as a
list (a single node is normalised to a one-element list by the source
before this logic runs).  Order of effects follows the source: the
stored check and the strict type check run before any state is touched;
the duplicate loop's first read of `self.elements` populates the cache;
on success the cache is updated with the batch dict and the batch is
forwarded to the store's group membership
(`super().add_nodes(nodes)`).  The returned `Family` is the state at
return or at the raise site. -/
def add_nodes (fam : Family) (nodes : List PseudoPotentialData) : Family × Option Err :=
  if fam.is_stored = false then (fam, some Err.modificationNotAllowed)
  else if nodes.any (fun n => n.cls != fam.pseudoType) then (fam, some Err.typeError)
  else
    let fam1 := forcePseudos fam
    match checkDuplicates (elementsOf fam) nodes [] with
    | Except.error e => (fam1, some e)
    | Except.ok batch =>
        ({ fam1 with
            cache := some (dictUpdate (pseudosDict fam1) batch),
            storedNodes := fam1.storedNodes ++ nodes }, none)

/-- The fallback query of `get_pseudo`: a `QueryBuilder` constrained to
the family's group, to nodes of the accepted type (default
`subclassing=True`), and to attribute equality on `element`. -/
def queryElement (fam : Family) (element : String) : List PseudoPotentialData :=
  fam.storedNodes.filter (fun p => p.element == some element && subclassOf p.cls fam.pseudoType)

/-- `PseudoPotentialFamily.get_pseudo(element)`: try the membership
cache (populating it on first access), otherwise run the targeted
query; `builder.one()` raises `MultipleObjectsError` (re-raised as
`RuntimeError`, the spec's `LookupConsistencyError`) on more than one
match and `NotExistent` (re-raised as `ValueError`, the spec's
`NotFoundError`) on zero matches; a query hit is cached. -/
def get_pseudo (fam : Family) (element : String) :
    Family × Except Err PseudoPotentialData :=
  let fam1 := forcePseudos fam
  match dictFind (pseudosDict fam1) (some element) with
  | some p => (fam1, Except.ok p)
  | none =>
      match queryElement fam1 element with
      | [] => (fam1, Except.error (Err.notFound fam.label element))
      | [p] => ({ fam1 with cache := some (dictInsert (some element) p (pseudosDict fam1)) },
                Except.ok p)
      | _ => (fam1, Except.error (Err.multipleMatches fam.label element))

/-- A kind of a `StructureData` node, carrying its element symbol. -/
structure Kind where
  symbol : String
deriving DecidableEq

/-- The external `StructureData` node, reduced to its list of kinds. -/
structure StructureData where
  kinds : List Kind
deriving DecidableEq

/-- The Python value passed as the `elements` keyword argument of
`get_pseudos`: a list of symbols, a tuple of symbols, a
`StructureData` instance, or a value of any other type. -/
inductive ElementsArg where
  | pylist (xs : List String)
  | pytuple (xs : List String)
  | pystructure (s : StructureData)
  | pyother
deriving DecidableEq

/-- Python `isinstance(elements, (list, tuple))`. -/
def isListOrTuple : ElementsArg → Bool
  | ElementsArg.pylist _ => true
  | ElementsArg.pytuple _ => true
  | _ => false

/-- Python `isinstance(elements, StructureData)`. -/
def isStructureInst : ElementsArg → Bool
  | ElementsArg.pystructure _ => true
  | _ => false

/-- The dict comprehension
`{element: self.get_pseudo(element) for element in elements}`: look the
elements up in order, propagate the first raised lookup error together
with the family state at that point, and build the result dict. -/
def getPseudosLoop :
    Family → List String → List (String × PseudoPotentialData) →
    Family × Except Err (List (String × PseudoPotentialData))
  | fam, [], acc => (fam, Except.ok acc)
  | fam, e :: rest, acc =>
      match get_pseudo fam e with
      | (fam1, Except.error err) => (fam1, Except.error err)
      | (fam1, Except.ok p) => getPseudosLoop fam1 rest (dictInsert e p acc)

/-- Iterating `for element in elements` over the raw `elements`
argument: lists and tuples yield their symbols; a `StructureData` (or
any other non-iterable object) raises `TypeError` at the loop, since it
defines no `__iter__` — this is where an `elements` argument that
slipped past the type check ends up. -/
def iterateElements (fam : Family) :
    ElementsArg → Family × Except Err (List (String × PseudoPotentialData))
  | ElementsArg.pylist xs => getPseudosLoop fam xs []
  | ElementsArg.pytuple xs => getPseudosLoop fam xs []
  | ElementsArg.pystructure _ => (fam, Except.error Err.notIterable)
  | ElementsArg.pyother => (fam, Except.error Err.notIterable)

/-- `PseudoPotentialFamily.get_pseudos(*, elements=None, structure=None)`.
Checks follow the source order: both keywords given, neither given,
`elements` neither a list nor a tuple nor a `StructureData` (note the
`StructureData` escape hatch in the source condition), `structure` not
a `StructureData` (always satisfied here since the model types the
`structure` argument).  With `structure` given, the element list is
derived from the structure's kind symbols. -/
def get_pseudos (fam : Family) (elements : Option ElementsArg)
    (struct : Option StructureData) :
    Family × Except Err (List (String × PseudoPotentialData)) :=
  if elements.isSome && struct.isSome then (fam, Except.error Err.bothKeywords)
  else if elements.isNone && struct.isNone then (fam, Except.error Err.neitherKeyword)
  else
    match elements with
    | some a =>
        if !isListOrTuple a && !isStructureInst a then
          (fam, Except.error Err.elementsNotListOrTuple)
        else iterateElements fam a
    | none =>
        match struct with
        | some s => getPseudosLoop fam (s.kinds.map (fun k => k.symbol)) []
        | none => (fam, Except.error Err.neitherKeyword)

/-- The slice of the backing store that `create_from_folder` touches:
the labels of already existing families of the class at hand, and the
persisted pseudo-potential nodes the deduplication query can see. -/
structure Store where
  labels : List String
  nodes : List PseudoPotentialData
deriving DecidableEq

/-- `pseudo.store()` viewed as a pure value: an already stored node is
returned unchanged, an unstored one becomes stored. -/
def markStored (p : PseudoPotentialData) : PseudoPotentialData :=
  if p.is_stored then p else { p with is_stored := true }

/-- `pseudo.store()` including its effect on the backing store: a
freshly stored node enters the store's node table. -/
def storeNode (s : Store) (p : PseudoPotentialData) : Store × PseudoPotentialData :=
  if p.is_stored then (s, p)
  else ({ s with nodes := s.nodes ++ [markStored p] }, markStored p)

/-- The list comprehension `[pseudo.store() for pseudo in family_pseudos]`. -/
def storeAll (s : Store) : List PseudoPotentialData → Store × List PseudoPotentialData
  | [] => (s, [])
  | p :: rest =>
      let r1 := storeNode s p
      let r2 := storeAll r1.1 rest
      (r2.1, r1.2 :: r2.2)

/-- The deduplication query of `create_from_folder`:
`QueryBuilder().append(cls.pseudo_type, subclassing=False,
filters={'attributes.md5': pseudo.md5}).first()` — the first persisted
node of EXACTLY the accepted class whose md5 equals the parsed one. -/
def dedupFind (store : Store) (pt : PClass) (p : PseudoPotentialData) :
    Option PseudoPotentialData :=
  store.nodes.find? (fun q => q.cls == pt && q.md5 == p.md5)

/-- The per-record substitution of the deduplication loop: with
`deduplicate` set, a query hit replaces the freshly parsed record. -/
def substitute (store : Store) (pt : PClass) (deduplicate : Bool)
    (p : PseudoPotentialData) : PseudoPotentialData :=
  if deduplicate then (dedupFind store pt p).getD p else p

/-- `PseudoPotentialFamily.create_from_folder(dirpath, label,
description, deduplicate)`: reject an already used label (the group
lookup happens before anything else), parse the directory, substitute
deduplicated records, and only then mutate the store — the group is
stored first, then the records, then the records are attached through
`add_nodes` in a single call.  The unstored in-memory family created
before parsing has no observable effect and is represented directly by
the stored family. -/
def create_from_folder (store : Store) (pt : PClass) (ctor : Ctor) (dirpath : String)
    (fs : FSEntry) (label description : String) (deduplicate : Bool) :
    Store × Except Err Family :=
  if label ∈ store.labels then (store, Except.error (Err.alreadyExists label))
  else
    match parse_pseudos_from_directory pt ctor dirpath fs with
    | Except.error e => (store, Except.error e)
    | Except.ok parsed =>
        let familyPseudos := parsed.map (substitute store pt deduplicate)
        let store1 : Store := { store with labels := store.labels ++ [label] }
        let family : Family :=
          { label := label, description := description, pseudoType := pt,
            is_stored := true, cache := none, storedNodes := [] }
        let r := storeAll store1 familyPseudos
        match add_nodes family r.2 with
        | (fam1, none) => (r.1, Except.ok fam1)
        | (_, some e) => (r.1, Except.error e)

deriving instance DecidableEq for Except

/-! Concrete fixtures used to evaluate the embedded code on explicit
inputs: a simple constructor, families, stores and directory trees. -/

/-- Shorthand for the base record class. -/
def pc : PClass := PClass.pseudoPotentialData

/-- A concrete record constructor that never resolves an element itself
(element recovery must fall back to the filename) and uses the file
content as the md5 checksum. -/
def ctorContentMd5 : Ctor := fun c _ => Except.ok { element := none, md5 := c, nid := 0 }

/-- A stored hydrogen record. -/
def pcH1 : PseudoPotentialData :=
  { cls := pc, element := some "H", md5 := "m1", nid := 1, is_stored := true }

/-- A second, distinct stored hydrogen record. -/
def pcH2 : PseudoPotentialData :=
  { cls := pc, element := some "H", md5 := "m2", nid := 2, is_stored := true }

/-- A stored family with no members yet. -/
def famEx : Family :=
  { label := "fam", description := "", pseudoType := pc, is_stored := true,
    cache := none, storedNodes := [] }

/-- A persisted store record with element H and checksum X. -/
def qC2 : PseudoPotentialData :=
  { cls := pc, element := some "H", md5 := "X", nid := 10, is_stored := true }

/-- A store that already holds `qC2` and no family labels. -/
def storeC2 : Store := { labels := [], nodes := [qC2] }

/-- A directory containing one file named He.upf whose content X
collides with the checksum of `qC2`. -/
def fsC2 : FSEntry := FSEntry.dir [("He.upf", FSEntry.file "X")]

/-- The record parsed from `fsC2`: element He recovered from the
filename, checksum X. -/
def parsedC2 : PseudoPotentialData :=
  { cls := pc, element := some "He", md5 := "X", nid := 0, is_stored := false }

/-- The family produced by `create_from_folder` on `storeC2` / `fsC2`
with deduplication: its only member is the pre-existing `qC2`, whose
element is H, not He. -/
def famC2 : Family :=
  { label := "lbl", description := "", pseudoType := pc, is_stored := true,
    cache := some [(some "H", qC2)], storedNodes := [qC2] }

/-- An empty store. -/
def storeEmpty : Store := { labels := [], nodes := [] }

/-- A directory with one hydrogen and one helium file. -/
def fsW : FSEntry := FSEntry.dir [("H.upf", FSEntry.file "a"), ("He.upf", FSEntry.file "b")]

/-- The stored record parsed from H.upf in `fsW`. -/
def pHW : PseudoPotentialData :=
  { cls := pc, element := some "H", md5 := "a", nid := 0, is_stored := true }

/-- The stored record parsed from He.upf in `fsW`. -/
def pHeW : PseudoPotentialData :=
  { cls := pc, element := some "He", md5 := "b", nid := 0, is_stored := true }

/-- The family produced by `create_from_folder` on `storeEmpty` / `fsW`. -/
def famW : Family :=
  { label := "w", description := "", pseudoType := pc, is_stored := true,
    cache := some [(some "H", pHW), (some "He", pHeW)], storedNodes := [pHW, pHeW] }

/-- A corrupted family: two stored records for element H while the
populated cache has no entry for it. -/
def famCorrupt : Family :=
  { label := "c", description := "", pseudoType := pc, is_stored := true,
    cache := some [], storedNodes := [pcH1, pcH2] }

/-- A store whose label "existing" is already taken. -/
def storeC3 : Store := { labels := ["existing"], nodes := [] }

/-- A persisted record whose checksum equals the content of H.upf in
`fsC4`. -/
def qC4 : PseudoPotentialData :=
  { cls := pc, element := some "H", md5 := "a", nid := 7, is_stored := true }

/-- A store holding `qC4`. -/
def storeC4 : Store := { labels := [], nodes := [qC4] }

/-- A directory with a single hydrogen file whose content is the
checksum of `qC4`. -/
def fsC4 : FSEntry := FSEntry.dir [("H.upf", FSEntry.file "a")]

/-- The family produced by deduplicating creation on `storeC4` / `fsC4`:
its member is `qC4` itself. -/
def famC4 : Family :=
  { label := "c4", description := "", pseudoType := pc, is_stored := true,
    cache := some [(some "H", qC4)], storedNodes := [qC4] }

/-- Entries of a directory with two files that both resolve to element
H (H.upf and H.vpf). -/
def entriesC5 : List (String × FSEntry) :=
  [("H.upf", FSEntry.file "a"), ("H.vpf", FSEntry.file "b")]

/-- Inner level of a nested directory: one parseable file and one
subdirectory (a second nesting level). -/
def innerC6 : List (String × FSEntry) :=
  [("H.upf", FSEntry.file "a"), ("sub", FSEntry.dir [])]

/-- The record parsed from He.upf with content cc by `ctorContentMd5`. -/
def pHeC7 : PseudoPotentialData :=
  { cls := pc, element := some "He", md5 := "cc", nid := 0, is_stored := false }

/-- A stored family accepting exactly `UpfData` records. -/
def famB : Family :=
  { label := "b", description := "", pseudoType := PClass.upfData, is_stored := true,
    cache := none, storedNodes := [] }

/-- A record whose concrete class is a strict subclass of the class
`famB` accepts. -/
def nSub : PseudoPotentialData :=
  { cls := PClass.upfDataSub, element := some "H", md5 := "m", nid := 3, is_stored := true }

/-- A stored family with no members and an already populated cache. -/
def famEmpty : Family :=
  { label := "w9", description := "", pseudoType := pc, is_stored := true,
    cache := some [], storedNodes := [] }

/-- A structure with a single hydrogen kind. -/
def structW : StructureData := { kinds := [{ symbol := "H" }] }

/-! Helper lemmas about the Python-dict model. -/

theorem dictFind_insert_self {κ α : Type} [DecidableEq κ] (k : κ) (v : α) :
    ∀ d : List (κ × α), dictFind (dictInsert k v d) k = some v := by
  intro d
  induction d with
  | nil => simp [dictInsert, dictFind]
  | cons kv t ih =>
      obtain ⟨k1, v1⟩ := kv
      by_cases h : k1 = k
      · simp [dictInsert, dictFind, h]
      · simp [dictInsert, dictFind, h, ih]

theorem dictFind_insert_ne {κ α : Type} [DecidableEq κ] {k k' : κ} (h : k' ≠ k) (v : α) :
    ∀ d : List (κ × α), dictFind (dictInsert k' v d) k = dictFind d k := by
  intro d
  induction d with
  | nil => simp [dictInsert, dictFind, h]
  | cons kv t ih =>
      obtain ⟨k1, v1⟩ := kv
      by_cases h1 : k1 = k'
      · subst h1
        simp [dictInsert, dictFind, h]
      · by_cases h2 : k1 = k
        · simp [dictInsert, dictFind, h1, h2, Ne.symm h]
        · simp [dictInsert, dictFind, h1, h2, ih]

theorem dictFind_append {κ α : Type} [DecidableEq κ] (k : κ) :
    ∀ d1 d2 : List (κ × α), dictFind (d1 ++ d2) k =
      match dictFind d1 k with
      | some v => some v
      | none => dictFind d2 k := by
  intro d1 d2
  induction d1 with
  | nil => simp [dictFind]
  | cons kv t ih =>
      obtain ⟨k1, v1⟩ := kv
      by_cases h : k1 = k
      · simp [dictFind, h]
      · simp [dictFind, h, ih]

theorem dictInsert_of_find_none {κ α : Type} [DecidableEq κ] (k : κ) (v : α) :
    ∀ d : List (κ × α), dictFind d k = none → dictInsert k v d = d ++ [(k, v)] := by
  intro d
  induction d with
  | nil => intro _; simp [dictInsert]
  | cons kv t ih =>
      obtain ⟨k1, v1⟩ := kv
      intro h
      by_cases h1 : k1 = k
      · simp [dictFind, h1] at h
      · simp [dictFind, h1] at h
        simp [dictInsert, h1, ih h]

theorem dictKeys_insert_mem {κ α : Type} [DecidableEq κ] (k k' : κ) (v : α) :
    ∀ d : List (κ × α), k ∈ dictKeys (dictInsert k' v d) ↔ k = k' ∨ k ∈ dictKeys d := by
  intro d
  induction d with
  | nil => simp [dictInsert, dictKeys, eq_comm]
  | cons kv t ih =>
      obtain ⟨k1, v1⟩ := kv
      by_cases h1 : k1 = k'
      · subst h1
        simp [dictInsert, dictKeys, eq_comm]
      · simp [dictInsert, dictKeys, h1] at ih ⊢
        tauto

theorem dictKeys_cons {κ α : Type} (k : κ) (v : α) (t : List (κ × α)) :
    dictKeys ((k, v) :: t) = k :: dictKeys t := rfl

theorem dictKeys_nodup_insert {κ α : Type} [DecidableEq κ] (k : κ) (v : α) :
    ∀ d : List (κ × α), (dictKeys d).Nodup → (dictKeys (dictInsert k v d)).Nodup := by
  intro d
  induction d with
  | nil => intro _; simp [dictInsert, dictKeys]
  | cons kv t ih =>
      obtain ⟨k1, v1⟩ := kv
      intro hnd
      rw [dictKeys_cons, List.nodup_cons] at hnd
      by_cases h1 : k1 = k
      · subst h1
        rw [show dictInsert k1 v ((k1, v1) :: t) = (k1, v) :: t from by simp [dictInsert]]
        rw [dictKeys_cons, List.nodup_cons]
        exact hnd
      · rw [show dictInsert k v ((k1, v1) :: t) = (k1, v1) :: dictInsert k v t from by
          simp [dictInsert, h1]]
        rw [dictKeys_cons, List.nodup_cons]
        refine ⟨?_, ih hnd.2⟩
        intro hmem
        rcases (dictKeys_insert_mem k1 k v t).1 hmem with h | h
        · exact h1 h
        · exact hnd.1 h

theorem dictFind_foldl_not_mem (k : Option String) :
    ∀ (nodes : List PseudoPotentialData) (d : List (Option String × PseudoPotentialData)),
      (∀ n ∈ nodes, n.element ≠ k) →
      dictFind (nodes.foldl (fun d p => dictInsert p.element p d) d) k = dictFind d k := by
  intro nodes
  induction nodes with
  | nil => intro d _; rfl
  | cons n t ih =>
      intro d h
      have hn : n.element ≠ k := h n (List.mem_cons_self n t)
      have ht : ∀ m ∈ t, m.element ≠ k := fun m hm => h m (List.mem_cons_of_mem n hm)
      simpa [List.foldl_cons, ih _ ht] using dictFind_insert_ne hn n d

theorem dictFind_foldl_mem :
    ∀ (nodes : List PseudoPotentialData) (d : List (Option String × PseudoPotentialData))
      (m : PseudoPotentialData),
      (nodes.map (fun p => p.element)).Nodup → m ∈ nodes →
      dictFind (nodes.foldl (fun d p => dictInsert p.element p d) d) m.element = some m := by
  intro nodes
  induction nodes with
  | nil => intro d m _ hm; cases hm
  | cons n t ih =>
      intro d m hnd hm
      rw [List.map_cons, List.nodup_cons] at hnd
      by_cases hmt : m ∈ t
      · exact ih _ m hnd.2 hmt
      · have hmn : m = n := by
          rcases List.mem_cons.1 hm with h | h
          · exact h
          · exact absurd h hmt
        subst hmn
        have ht : ∀ p ∈ t, p.element ≠ m.element := by
          intro p hp hpe
          exact hnd.1 (by rw [← hpe]; exact List.mem_map_of_mem (fun p => p.element) hp)
        rw [List.foldl_cons, dictFind_foldl_not_mem m.element t _ ht,
          dictFind_insert_self]

theorem dictKeys_nodup_foldl :
    ∀ (nodes : List PseudoPotentialData) (d : List (Option String × PseudoPotentialData)),
      (dictKeys d).Nodup →
      (dictKeys (nodes.foldl (fun d p => dictInsert p.element p d) d)).Nodup := by
  intro nodes
  induction nodes with
  | nil => intro d h; exact h
  | cons n t ih =>
      intro d h
      exact ih _ (dictKeys_nodup_insert n.element n d h)

theorem dictUpdate_of_disjoint :
    ∀ (entries d : List ((Option String) × PseudoPotentialData)),
      (dictKeys entries).Nodup → (∀ k ∈ dictKeys entries, dictFind d k = none) →
      dictUpdate d entries = d ++ entries := by
  intro entries
  induction entries with
  | nil => intro d _ _; simp [dictUpdate]
  | cons kv t ih =>
      obtain ⟨k, v⟩ := kv
      intro d hnd hdis
      rw [dictKeys_cons, List.nodup_cons] at hnd
      have hk : dictFind d k = none := hdis k (by rw [dictKeys_cons]; exact List.mem_cons_self k _)
      have step : dictUpdate d ((k, v) :: t) = dictUpdate (d ++ [(k, v)]) t := by
        simp [dictUpdate, List.foldl_cons, dictInsert_of_find_none k v d hk]
      rw [step, ih (d ++ [(k, v)]) hnd.2]
      · simp
      · intro k2 hk2
        rw [dictFind_append]
        have hk2d : dictFind d k2 = none := hdis k2 (by rw [dictKeys_cons]; exact List.mem_cons_of_mem k hk2)
        have hne : k ≠ k2 := fun he => hnd.1 (he ▸ hk2)
        simp [hk2d, dictFind, hne]

theorem checkDuplicates_nil_current :
    ∀ (nodes : List PseudoPotentialData) (acc : List (Option String × PseudoPotentialData)),
      checkDuplicates [] nodes acc =
        Except.ok (nodes.foldl (fun d p => dictInsert p.element p d) acc) := by
  intro nodes
  induction nodes with
  | nil => intro acc; rfl
  | cons n t ih => intro acc; simp [checkDuplicates, List.foldl_cons, ih]

/-! Helper lemmas about parsing. -/

theorem processFile_ok_props (pt : PClass) (ctor : Ctor) (dirpath filename content : String)
    (p : PseudoPotentialData)
    (h : processFile pt ctor dirpath filename content = Except.ok p) :
    p.cls = pt ∧ p.is_stored = false := by
  unfold processFile at h
  cases hc : ctor content filename with
  | error msg => rw [hc] at h; cases h
  | ok out =>
      rw [hc] at h
      simp at h
      cases hel : out.element with
      | some e => rw [hel] at h; simp at h; rw [← h]; exact ⟨rfl, rfl⟩
      | none =>
          rw [hel] at h
          cases hr : recoverElement filename with
          | some sym => rw [hr] at h; simp at h; rw [← h]; exact ⟨rfl, rfl⟩
          | none => rw [hr] at h; cases h

theorem parseEntries_ok_props (pt : PClass) (ctor : Ctor) (dirpath : String) :
    ∀ (entries : List (String × FSEntry)) (ps : List PseudoPotentialData),
      parseEntries pt ctor dirpath entries = Except.ok ps →
      ∀ p ∈ ps, p.cls = pt ∧ p.is_stored = false := by
  intro entries
  induction entries with
  | nil =>
      intro ps h p hp
      unfold parseEntries at h
      simp at h
      rw [h] at hp
      cases hp
  | cons entry rest ih =>
      intro ps h p hp
      obtain ⟨filename, fse⟩ := entry
      cases fse with
      | dir sub => unfold parseEntries at h; cases h
      | file content =>
          unfold parseEntries at h
          cases hpf : processFile pt ctor dirpath filename content with
          | error e => rw [hpf] at h; cases h
          | ok q =>
              rw [hpf] at h
              cases hrest : parseEntries pt ctor dirpath rest with
              | error e => rw [hrest] at h; cases h
              | ok qs =>
                  rw [hrest] at h
                  simp at h
                  rw [← h] at hp
                  rcases List.mem_cons.1 hp with hq | hq
                  · rw [hq]; exact processFile_ok_props pt ctor dirpath filename content q hpf
                  · exact ih qs hrest p hq

theorem parseEntries_append (pt : PClass) (ctor : Ctor) (dirpath : String) :
    ∀ (l1 l2 : List (String × FSEntry)),
      parseEntries pt ctor dirpath (l1 ++ l2) =
        match parseEntries pt ctor dirpath l1 with
        | Except.error e => Except.error e
        | Except.ok ps1 =>
            match parseEntries pt ctor dirpath l2 with
            | Except.error e => Except.error e
            | Except.ok ps2 => Except.ok (ps1 ++ ps2) := by
  intro l1 l2
  induction l1 with
  | nil =>
      show parseEntries pt ctor dirpath l2 = _
      cases parseEntries pt ctor dirpath l2 <;> rfl
  | cons entry rest ih =>
      obtain ⟨filename, fse⟩ := entry
      cases fse with
      | dir sub => rfl
      | file content =>
          show (match processFile pt ctor dirpath filename content with
            | Except.error e => Except.error e
            | Except.ok p =>
                match parseEntries pt ctor dirpath (rest ++ l2) with
                | Except.error e => Except.error e
                | Except.ok ps => Except.ok (p :: ps)) =
            (match (match processFile pt ctor dirpath filename content with
              | Except.error e => Except.error e
              | Except.ok p =>
                  match parseEntries pt ctor dirpath rest with
                  | Except.error e => Except.error e
                  | Except.ok ps => Except.ok (p :: ps)) with
            | Except.error e => Except.error e
            | Except.ok ps1 =>
                match parseEntries pt ctor dirpath l2 with
                | Except.error e => Except.error e
                | Except.ok ps2 => Except.ok (ps1 ++ ps2))
          rw [ih]
          cases processFile pt ctor dirpath filename content with
          | error e => rfl
          | ok q =>
              cases parseEntries pt ctor dirpath rest with
              | error e => rfl
              | ok qs =>
                  cases parseEntries pt ctor dirpath l2 with
                  | error e => rfl
                  | ok xs => rfl

theorem parseResolved_ok_inv (pt : PClass) (ctor : Ctor) (dirpath : String)
    (entries : List (String × FSEntry)) (ps : List PseudoPotentialData)
    (h : parseResolved pt ctor dirpath entries = Except.ok ps) :
    parseEntries pt ctor dirpath entries = Except.ok ps ∧ ps ≠ [] ∧
      ps.length = (ps.map (fun p => p.element)).dedup.length := by
  cases he : parseEntries pt ctor dirpath entries with
  | error e => simp [parseResolved, he] at h
  | ok qs =>
      simp only [parseResolved, he] at h
      by_cases h1 : qs = []
      · rw [if_pos h1] at h; cases h
      · rw [if_neg h1] at h
        by_cases h2 : qs.length = (qs.map (fun p => p.element)).dedup.length
        · rw [if_neg (not_not_intro h2)] at h
          injection h with h
          subst h
          exact ⟨rfl, h1, h2⟩
        · rw [if_pos h2] at h; cases h

theorem not_nodup_of_length_ne_dedup {α : Type} [DecidableEq α] (l : List α)
    (h : l.length = l.dedup.length) : l.Nodup := by
  have hs := List.dedup_sublist l
  have heq : l.dedup = l := hs.eq_of_length h.symm
  rw [← heq]
  exact List.nodup_dedup l

theorem length_ne_dedup_of_not_nodup {α : Type} [DecidableEq α] (l : List α)
    (h : ¬ l.Nodup) : l.length ≠ l.dedup.length := by
  intro hlen
  exact h (not_nodup_of_length_ne_dedup l hlen)

theorem parse_ok_elements_nodup (pt : PClass) (ctor : Ctor) (dirpath : String)
    (fs : FSEntry) (ps : List PseudoPotentialData)
    (h : parse_pseudos_from_directory pt ctor dirpath fs = Except.ok ps) :
    (ps.map (fun p => p.element)).Nodup ∧ ps ≠ [] ∧
      ∀ p ∈ ps, p.cls = pt ∧ p.is_stored = false := by
  cases fs with
  | file content => cases h
  | dir entries =>
      unfold parse_pseudos_from_directory at h
      have hinv := parseResolved_ok_inv pt ctor (resolveLevel dirpath entries).1
        (resolveLevel dirpath entries).2 ps h
      exact ⟨not_nodup_of_length_ne_dedup (ps.map (fun p => p.element))
          (by rw [List.length_map]; exact hinv.2.2), hinv.2.1,
        parseEntries_ok_props pt ctor _ _ ps hinv.1⟩

/-! Helper lemmas about storing and deduplication. -/

theorem markStored_element (p : PseudoPotentialData) : (markStored p).element = p.element := by
  unfold markStored
  split <;> rfl

theorem markStored_cls (p : PseudoPotentialData) : (markStored p).cls = p.cls := by
  unfold markStored
  split <;> rfl

theorem markStored_of_stored (p : PseudoPotentialData) (h : p.is_stored = true) :
    markStored p = p := by
  unfold markStored
  rw [if_pos h]

theorem storeAll_eq :
    ∀ (l : List PseudoPotentialData) (s : Store),
      storeAll s l =
        ({ s with nodes := s.nodes ++ (l.filter (fun p => !p.is_stored)).map markStored },
         l.map markStored) := by
  intro l
  induction l with
  | nil => intro s; simp [storeAll]
  | cons p rest ih =>
      intro s
      by_cases hp : p.is_stored = true
      · have hm := markStored_of_stored p hp
        simp [storeAll, storeNode, hp, ih, hm, List.filter_cons]
      · have hp2 : p.is_stored = false := by
          cases hps : p.is_stored
          · rfl
          · exact absurd hps hp
        simp [storeAll, storeNode, hp2, ih, List.filter_cons, List.append_assoc]

theorem dedupFind_some_props (store : Store) (pt : PClass) (p q : PseudoPotentialData)
    (h : dedupFind store pt p = some q) :
    q ∈ store.nodes ∧ q.cls = pt ∧ q.md5 = p.md5 := by
  unfold dedupFind at h
  have hmem := List.mem_of_find?_eq_some h
  have hprop := List.find?_some h
  rw [Bool.and_eq_true, beq_iff_eq, beq_iff_eq] at hprop
  exact ⟨hmem, hprop.1, hprop.2⟩

theorem substitute_cls (store : Store) (pt : PClass) (dd : Bool) (p : PseudoPotentialData)
    (hp : p.cls = pt) : (substitute store pt dd p).cls = pt := by
  unfold substitute
  cases dd with
  | false => simpa using hp
  | true =>
      cases hfind : dedupFind store pt p with
      | none => simpa using hp
      | some q => simpa using (dedupFind_some_props store pt p q hfind).2.1

theorem substitute_element (store : Store) (pt : PClass) (dd : Bool) (p : PseudoPotentialData)
    (hpres : ∀ q, dd = true → dedupFind store pt p = some q → q.element = p.element) :
    (substitute store pt dd p).element = p.element := by
  unfold substitute
  cases dd with
  | false => simp
  | true =>
      cases hfind : dedupFind store pt p with
      | none => simp
      | some q => simpa using hpres q rfl hfind

theorem add_nodes_fresh (label description : String) (pt : PClass)
    (nodes : List PseudoPotentialData) (hcls : ∀ n ∈ nodes, n.cls = pt) :
    add_nodes
      { label := label, description := description, pseudoType := pt,
        is_stored := true, cache := none, storedNodes := [] } nodes =
      ({ label := label, description := description, pseudoType := pt,
         is_stored := true, cache := some (dictOfNodes nodes), storedNodes := nodes }, none) := by
  have hany : nodes.any (fun n => n.cls != pt) = false := by
    rw [List.any_eq_false]
    intro n hn
    simp [hcls n hn]
  have hupd : dictUpdate [] (List.foldl (fun d p => dictInsert p.element p d) [] nodes) =
      List.foldl (fun d p => dictInsert p.element p d) [] nodes := by
    have h1 := dictUpdate_of_disjoint (dictOfNodes nodes) []
      (dictKeys_nodup_foldl nodes [] (by simp [dictKeys]))
      (by intro k _; rfl)
    simpa [dictOfNodes] using h1
  simp [add_nodes, hany, forcePseudos, pseudosDict, elementsOf, dictKeys, dictOfNodes,
    checkDuplicates_nil_current, hupd]

theorem create_from_folder_ok (store : Store) (pt : PClass) (ctor : Ctor)
    (dirpath : String) (fs : FSEntry) (label description : String) (dd : Bool)
    (ps : List PseudoPotentialData)
    (hlabel : label ∉ store.labels)
    (hparse : parse_pseudos_from_directory pt ctor dirpath fs = Except.ok ps) :
    create_from_folder store pt ctor dirpath fs label description dd =
      ({ labels := store.labels ++ [label],
         nodes := store.nodes ++
           ((ps.map (substitute store pt dd)).filter (fun p => !p.is_stored)).map markStored },
       Except.ok
        { label := label, description := description, pseudoType := pt,
          is_stored := true,
          cache := some (dictOfNodes ((ps.map (substitute store pt dd)).map markStored)),
          storedNodes := (ps.map (substitute store pt dd)).map markStored }) := by
  have hprops := parse_ok_elements_nodup pt ctor dirpath fs ps hparse
  have hcls : ∀ n ∈ (ps.map (substitute store pt dd)).map markStored, n.cls = pt := by
    intro n hn
    rw [List.map_map] at hn
    rcases List.mem_map.1 hn with ⟨p, hp, hpn⟩
    rw [← hpn, Function.comp_apply, markStored_cls]
    exact substitute_cls store pt dd p (hprops.2.2 p hp).1
  unfold create_from_folder
  rw [if_neg hlabel, hparse]
  simp only [storeAll_eq,
    add_nodes_fresh label description pt ((ps.map (substitute store pt dd)).map markStored) hcls]

/-! Helper lemmas about lookup. -/

theorem pseudosDict_force (fam : Family) : pseudosDict (forcePseudos fam) = pseudosDict fam := rfl

theorem queryElement_force (fam : Family) (e : String) :
    queryElement (forcePseudos fam) e = queryElement fam e := rfl

theorem get_pseudo_cache_hit (fam : Family) (e : String) (p : PseudoPotentialData)
    (h : dictFind (pseudosDict fam) (some e) = some p) :
    get_pseudo fam e = (forcePseudos fam, Except.ok p) := by
  simp only [get_pseudo, pseudosDict_force, h]

theorem get_pseudo_zero_matches (fam : Family) (e : String)
    (h : dictFind (pseudosDict fam) (some e) = none)
    (hq : queryElement fam e = []) :
    get_pseudo fam e = (forcePseudos fam, Except.error (Err.notFound fam.label e)) := by
  simp only [get_pseudo, pseudosDict_force, queryElement_force, h, hq]

theorem get_pseudo_many_matches (fam : Family) (e : String)
    (h : dictFind (pseudosDict fam) (some e) = none)
    (hq : 2 ≤ (queryElement fam e).length) :
    (get_pseudo fam e).2 = Except.error (Err.multipleMatches fam.label e) := by
  simp only [get_pseudo, pseudosDict_force, queryElement_force, h]
  cases hqs : queryElement fam e with
  | nil => rw [hqs] at hq; simp at hq
  | cons x t =>
      cases t with
      | nil => rw [hqs] at hq; simp at hq
      | cons y t2 => rfl

theorem create_label_mem (store : Store) (pt : PClass) (ctor : Ctor) (dirpath : String)
    (fs : FSEntry) (label description : String) (dd : Bool)
    (h : label ∈ store.labels) :
    create_from_folder store pt ctor dirpath fs label description dd =
      (store, Except.error (Err.alreadyExists label)) := by
  unfold create_from_folder
  rw [if_pos h]

theorem filter_of_map (f : PseudoPotentialData → PseudoPotentialData)
    (g : PseudoPotentialData → Bool) :
    ∀ l : List PseudoPotentialData,
      (l.map f).filter g = (l.filter (fun a => g (f a))).map f := by
  intro l
  induction l with
  | nil => rfl
  | cons a t ih =>
      by_cases h : g (f a) = true
      · simp [List.filter_cons, h, ih]
      · simp [List.filter_cons, h, ih]

theorem add_nodes_ok_inv (fam : Family) (nodes : List PseudoPotentialData) (fam' : Family)
    (h : add_nodes fam nodes = (fam', none)) :
    fam'.storedNodes = fam.storedNodes ++ nodes ∧
      ∀ n ∈ nodes, n.cls = fam.pseudoType := by
  unfold add_nodes at h
  by_cases h1 : fam.is_stored = false
  · rw [if_pos h1] at h
    simp at h
  · rw [if_neg h1] at h
    by_cases h2 : nodes.any (fun n => n.cls != fam.pseudoType) = true
    · rw [if_pos h2] at h
      simp at h
    · rw [if_neg h2] at h
      have hcls : ∀ n ∈ nodes, n.cls = fam.pseudoType := by
        rw [Bool.not_eq_true, List.any_eq_false] at h2
        intro n hn
        have := h2 n hn
        simpa using this
      cases hcd : checkDuplicates (elementsOf fam) nodes [] with
      | error e => simp only [hcd] at h; simp at h
      | ok batch =>
          simp only [hcd] at h
          have h3 := congrArg Prod.fst h
          simp at h3
          rw [← h3]
          exact ⟨by simp [forcePseudos], hcls⟩

/-! Claim theorems. -/

/-- C1 (code evaluation at the failing input): the claim says
`add_records` fails with `DuplicateElementError` when two candidates in
the same batch share an element.  The code checks each candidate only
against the current-membership snapshot, never against the batch
itself: on a stored empty family, a batch of two distinct records that
both carry element H is admitted without error, both records are
forwarded to the backing store's group membership, and the cache keeps
only the last one — violating the one-record-per-element invariant
stated in the method's own docstring. -/
theorem c1_batch_duplicates_admitted :
    add_nodes famEx [pcH1, pcH2] =
      ({ famEx with cache := some [(some "H", pcH2)], storedNodes := [pcH1, pcH2] }, none) := by
  rfl

/-- C3: for every label already present in the backing store,
`create_from_folder` with that label fails with the `AlreadyExistsError`
(`ValueError`) and the store is returned unchanged — no mutation is
performed; the result is the same for every directory argument, so the
label check precedes parsing, family storage and record storage. -/
theorem c3_already_exists_no_mutation (store : Store) (pt : PClass) (ctor : Ctor)
    (dirpath : String) (fs : FSEntry) (label description : String) (dd : Bool)
    (h : label ∈ store.labels) :
    create_from_folder store pt ctor dirpath fs label description dd =
      (store, Except.error (Err.alreadyExists label)) :=
  create_label_mem store pt ctor dirpath fs label description dd h

/-- Witness for C3 at a concrete store whose label "existing" is taken. -/
theorem c3_witness :
    ("existing" ∈ storeC3.labels) ∧
    create_from_folder storeC3 pc ctorContentMd5 "/d" fsW "existing" "" true =
      (storeC3, Except.error (Err.alreadyExists "existing")) :=
  ⟨by decide,
   c3_already_exists_no_mutation storeC3 pc ctorContentMd5 "/d" fsW "existing" "" true
     (by decide)⟩

/-- C7 (code evaluation at the failing input): element recovery from
the filename behaves as specified (He.upf yields He, both for the bare
pattern and through the full parser), but when no element can be
determined the raised `ParsingError` does NOT name the offending file:
the message is the fixed `noElementMessage` string, which contains the
literal, uninterpolated placeholder (the source line lacks the
f-string prefix), does not contain the filename, and is identical for
two different unparseable filenames. -/
theorem c7_element_recovery_and_unnamed_file :
    recoverElement "He.upf" = some "He" ∧
    parse_pseudos_from_directory pc ctorContentMd5 "/d"
      (FSEntry.dir [("He.upf", FSEntry.file "cc")]) = Except.ok [pHeC7] ∧
    parse_pseudos_from_directory pc ctorContentMd5 "/d"
      (FSEntry.dir [("pseudo_file.dat", FSEntry.file "cc")]) =
      Except.error (Err.parsingError (noElementMessage pc)) ∧
    (noElementMessage pc =
      "`PseudoPotentialData` constructor did not define the element and could not parse a valid element symbol from the filename `\x7bfilename\x7d` either. It should have the format `ELEMENT.EXTENSION`") ∧
    parse_pseudos_from_directory pc ctorContentMd5 "/d"
      (FSEntry.dir [("pseudo_file.dat", FSEntry.file "cc")]) =
      parse_pseudos_from_directory pc ctorContentMd5 "/d"
        (FSEntry.dir [("other_name.xyz", FSEntry.file "cc")]) := by
  refine ⟨rfl, rfl, rfl, rfl, rfl⟩

/-- C10: passing a `StructureData` as the `elements` keyword with
`structure` unset passes the elements type validation (the source
condition also accepts a `StructureData` there) and the value is
handed directly to the element iteration stage; the
`InvalidInputError` for a non-list, non-tuple `elements` argument is
not raised. -/
theorem c10_structure_as_elements_passes_check (fam : Family) (s : StructureData) :
    get_pseudos fam (some (ElementsArg.pystructure s)) none =
      iterateElements fam (ElementsArg.pystructure s) ∧
    (get_pseudos fam (some (ElementsArg.pystructure s)) none).2 ≠
      Except.error Err.elementsNotListOrTuple := by
  constructor
  · rfl
  · show Except.error Err.notIterable ≠ Except.error Err.elementsNotListOrTuple
    decide

/-- C2 (counterexample to the claim as stated): a successful
deduplicating `create_from_folder` on a store holding `qC2` (element H,
checksum X) and a directory whose single file He.upf has content X
parses a record with element He, but deduplication substitutes the
checksum-matching `qC2` for it; the lookup of the parsed element He on
the created family then fails with the `NotFoundError`, so it is not
the case that every element parsed from the path can be looked up. -/
theorem c2_counterexample :
    create_from_folder storeC2 pc ctorContentMd5 "/p" fsC2 "lbl" "" true =
      ({ labels := ["lbl"], nodes := [qC2] }, Except.ok famC2) ∧
    parse_pseudos_from_directory pc ctorContentMd5 "/p" fsC2 = Except.ok [parsedC2] ∧
    parsedC2.element = some "He" ∧
    (get_pseudo famC2 "He").2 = Except.error (Err.notFound "lbl" "He") :=
  ⟨rfl, rfl, rfl, rfl⟩

/-- C2 (amended): after a successful `create_from_folder`, provided
every record substituted by deduplication carries the same element as
the parsed record it replaces (always the case when `deduplicate` is
false), `get_pseudo` returns the corresponding stored member, with
matching element, for every element parsed from the directory, and
fails with the `NotFoundError` for any element not parsed from the
directory; and on any family, a lookup that misses the cache and whose
backing query returns more than one match fails with the
`LookupConsistencyError` (`RuntimeError`). -/
theorem c2_lookup_after_create (store : Store) (pt : PClass) (ctor : Ctor)
    (dirpath : String) (fs : FSEntry) (label description : String) (dd : Bool)
    (store' : Store) (fam : Family) (ps : List PseudoPotentialData)
    (hcreate : create_from_folder store pt ctor dirpath fs label description dd =
      (store', Except.ok fam))
    (hparse : parse_pseudos_from_directory pt ctor dirpath fs = Except.ok ps)
    (hpres : ∀ p ∈ ps, ∀ q, dd = true → dedupFind store pt p = some q →
      q.element = p.element) :
    (∀ p ∈ ps, ∀ e, p.element = some e →
      (get_pseudo fam e).2 = Except.ok (markStored (substitute store pt dd p)) ∧
      (markStored (substitute store pt dd p)).element = some e) ∧
    (∀ e : String, (∀ p ∈ ps, p.element ≠ some e) →
      (get_pseudo fam e).2 = Except.error (Err.notFound fam.label e)) ∧
    (∀ (g : Family) (e : String),
      dictFind (pseudosDict g) (some e) = none →
      2 ≤ (queryElement g e).length →
      (get_pseudo g e).2 = Except.error (Err.multipleMatches g.label e)) := by
  have hlabel : label ∉ store.labels := by
    intro hmem
    rw [create_label_mem store pt ctor dirpath fs label description dd hmem] at hcreate
    simp at hcreate
  have hckey := create_from_folder_ok store pt ctor dirpath fs label description dd ps
    hlabel hparse
  rw [hckey] at hcreate
  have hfam : fam =
      { label := label, description := description, pseudoType := pt,
        is_stored := true,
        cache := some (dictOfNodes ((ps.map (substitute store pt dd)).map markStored)),
        storedNodes := (ps.map (substitute store pt dd)).map markStored } :=
    (Except.ok.inj (congrArg Prod.snd hcreate)).symm
  subst hfam
  have hprops := parse_ok_elements_nodup pt ctor dirpath fs ps hparse
  have helem : ∀ p ∈ ps, (markStored (substitute store pt dd p)).element = p.element := by
    intro p hp
    rw [markStored_element]
    exact substitute_element store pt dd p (fun q hdd hfind => hpres p hp q hdd hfind)
  have helems : ((ps.map (substitute store pt dd)).map markStored).map (fun p => p.element)
      = ps.map (fun p => p.element) := by
    rw [List.map_map, List.map_map]
    apply List.map_congr_left
    intro p hp
    exact helem p hp
  have hnd : (((ps.map (substitute store pt dd)).map markStored).map
      (fun p => p.element)).Nodup := by
    rw [helems]
    exact hprops.1
  refine ⟨?_, ?_, ?_⟩
  · intro p hp e hpe
    have hm : markStored (substitute store pt dd p) ∈
        (ps.map (substitute store pt dd)).map markStored :=
      List.mem_map_of_mem markStored (List.mem_map_of_mem (substitute store pt dd) hp)
    have hmel : (markStored (substitute store pt dd p)).element = some e := by
      rw [helem p hp]; exact hpe
    have hfind : dictFind (dictOfNodes ((ps.map (substitute store pt dd)).map markStored))
        (some e) = some (markStored (substitute store pt dd p)) := by
      have := dictFind_foldl_mem ((ps.map (substitute store pt dd)).map markStored) []
        (markStored (substitute store pt dd p)) hnd hm
      rw [hmel] at this
      exact this
    constructor
    · have hhit := get_pseudo_cache_hit
        ⟨label, description, pt, true,
          some (dictOfNodes ((ps.map (substitute store pt dd)).map markStored)),
          (ps.map (substitute store pt dd)).map markStored⟩ e
        (markStored (substitute store pt dd p)) hfind
      rw [hhit]
    · exact hmel
  · intro e he
    have hnone : ∀ n ∈ (ps.map (substitute store pt dd)).map markStored,
        n.element ≠ some e := by
      intro n hn
      rcases List.mem_map.1 hn with ⟨q, hq, hqe⟩
      rcases List.mem_map.1 hq with ⟨p, hp, hpq⟩
      rw [← hqe, ← hpq, helem p hp]
      exact he p hp
    have hfind : dictFind (dictOfNodes ((ps.map (substitute store pt dd)).map markStored))
        (some e) = none :=
      dictFind_foldl_not_mem (some e) _ [] hnone
    have hq : queryElement
        ⟨label, description, pt, true,
          some (dictOfNodes ((ps.map (substitute store pt dd)).map markStored)),
          (ps.map (substitute store pt dd)).map markStored⟩ e = [] := by
      rw [queryElement, List.filter_eq_nil_iff]
      intro n hn
      simp [hnone n hn]
    have hz := get_pseudo_zero_matches
      ⟨label, description, pt, true,
        some (dictOfNodes ((ps.map (substitute store pt dd)).map markStored)),
        (ps.map (substitute store pt dd)).map markStored⟩ e hfind hq
    rw [hz]
  · intro g e h1 h2
    exact get_pseudo_many_matches g e h1 h2

/-- Witness for the amended C2: the family created from a directory
with H.upf and He.upf answers the lookup for H with the stored
hydrogen member, fails with `NotFoundError` for Li, and a corrupted
family with two stored H records and a cache miss fails with the
`LookupConsistencyError`. -/
theorem c2_lookup_after_create_witness :
    (get_pseudo famW "H").2 = Except.ok pHW ∧
    (get_pseudo famW "Li").2 = Except.error (Err.notFound "w" "Li") ∧
    (get_pseudo famCorrupt "H").2 = Except.error (Err.multipleMatches "c" "H") := by
  have h := c2_lookup_after_create storeEmpty pc ctorContentMd5 "/d" fsW "w" "" false
    { labels := ["w"], nodes := [pHW, pHeW] } famW
    [{ cls := pc, element := some "H", md5 := "a", nid := 0, is_stored := false },
     { cls := pc, element := some "He", md5 := "b", nid := 0, is_stored := false }]
    (by rfl) (by rfl) (by intro p hp q hdd hfind; exact absurd hdd (by decide))
  refine ⟨?_, ?_, ?_⟩
  · have h1 := (h.1 { cls := pc, element := some "H", md5 := "a", nid := 0, is_stored := false }
      (by decide) "H" rfl).1
    rw [h1]
    rfl
  · exact h.2.1 "Li" (by decide)
  · exact h.2.2 famCorrupt "H" rfl (by decide)

/-- C4: with `deduplicate` set, every parsed record whose checksum
matches a persisted record of exactly the accepted class (the query
uses `subclassing=False`) is replaced by that pre-existing stored
record: the family members are exactly the substituted records (stored
in order), each matched store record is itself a member (same
identity, not a copy), and the backing store gains only the records
with no checksum match — the discarded duplicate parses are never
persisted. -/
theorem c4_deduplication_identity (store : Store) (pt : PClass) (ctor : Ctor)
    (dirpath : String) (fs : FSEntry) (label description : String)
    (store' : Store) (fam : Family) (ps : List PseudoPotentialData)
    (hwf : ∀ q ∈ store.nodes, q.is_stored = true)
    (hcreate : create_from_folder store pt ctor dirpath fs label description true =
      (store', Except.ok fam))
    (hparse : parse_pseudos_from_directory pt ctor dirpath fs = Except.ok ps) :
    fam.storedNodes = (ps.map (substitute store pt true)).map markStored ∧
    (∀ p ∈ ps, ∀ q, dedupFind store pt p = some q → q ∈ fam.storedNodes) ∧
    store'.nodes = store.nodes ++
      (ps.filter (fun p => dedupFind store pt p == none)).map markStored := by
  have hlabel : label ∉ store.labels := by
    intro hmem
    rw [create_label_mem store pt ctor dirpath fs label description true hmem] at hcreate
    simp at hcreate
  have hckey := create_from_folder_ok store pt ctor dirpath fs label description true ps
    hlabel hparse
  rw [hckey] at hcreate
  have hprops := parse_ok_elements_nodup pt ctor dirpath fs ps hparse
  have hfam : fam =
      { label := label, description := description, pseudoType := pt,
        is_stored := true,
        cache := some (dictOfNodes ((ps.map (substitute store pt true)).map markStored)),
        storedNodes := (ps.map (substitute store pt true)).map markStored } :=
    (Except.ok.inj (congrArg Prod.snd hcreate)).symm
  have hstore : store' =
      { labels := store.labels ++ [label],
        nodes := store.nodes ++
          ((ps.map (substitute store pt true)).filter (fun p => !p.is_stored)).map
            markStored } :=
    (congrArg Prod.fst hcreate).symm
  subst hfam
  refine ⟨rfl, ?_, ?_⟩
  · intro p hp q hfind
    have hq := dedupFind_some_props store pt p q hfind
    have hsub : substitute store pt true p = q := by
      simp [substitute, hfind]
    have hms : markStored (substitute store pt true p) = q := by
      rw [hsub]
      exact markStored_of_stored q (hwf q hq.1)
    show q ∈ (ps.map (substitute store pt true)).map markStored
    rw [← hms]
    exact List.mem_map_of_mem markStored (List.mem_map_of_mem (substitute store pt true) hp)
  · have hcond : ∀ a ∈ ps, (!(substitute store pt true a).is_stored) =
        (dedupFind store pt a == none) := by
      intro a ha
      cases hfind : dedupFind store pt a with
      | none =>
          have hsa : substitute store pt true a = a := by simp [substitute, hfind]
          rw [hsa, (hprops.2.2 a ha).2]
          simp
      | some q =>
          have hsa : substitute store pt true a = q := by simp [substitute, hfind]
          rw [hsa, hwf q (dedupFind_some_props store pt a q hfind).1]
          simp
    have h1 : (ps.map (substitute store pt true)).filter (fun p => !p.is_stored)
        = (ps.filter (fun a => dedupFind store pt a == none)).map
            (substitute store pt true) := by
      rw [filter_of_map]
      congr 1
      exact List.filter_congr hcond
    have h2 : ((ps.filter (fun a => dedupFind store pt a == none)).map
        (substitute store pt true)).map markStored
        = (ps.filter (fun a => dedupFind store pt a == none)).map markStored := by
      rw [List.map_map]
      apply List.map_congr_left
      intro a ha
      have hfa : dedupFind store pt a = none := by
        have := (List.mem_filter.1 ha).2
        simpa using this
      simp [Function.comp_apply, substitute, hfa]
    rw [hstore]
    show store.nodes ++
        ((ps.map (substitute store pt true)).filter (fun p => !p.is_stored)).map markStored
      = store.nodes ++ (ps.filter (fun p => dedupFind store pt p == none)).map markStored
    rw [h1, h2]

/-- Witness for C4: deduplicating creation over `storeC4` substitutes
the persisted `qC4` for the parsed hydrogen record, the family's
member list is exactly `[qC4]`, and nothing new is persisted. -/
theorem c4_deduplication_identity_witness :
    famC4.storedNodes = [qC4] ∧ qC4 ∈ famC4.storedNodes ∧
    storeC4.nodes ++ ([] : List PseudoPotentialData) = [qC4] := by
  have h := c4_deduplication_identity storeC4 pc ctorContentMd5 "/d" fsC4 "c4" ""
    { labels := ["c4"], nodes := [qC4] } famC4
    [{ cls := pc, element := some "H", md5 := "a", nid := 0, is_stored := false }]
    (by decide) (by rfl) (by rfl)
  refine ⟨by rw [h.1]; rfl, ?_, by decide⟩
  exact h.2.1 { cls := pc, element := some "H", md5 := "a", nid := 0, is_stored := false }
    (by decide) qC4 (by rfl)

/-- C5: whenever the per-file loop at the resolved directory level
succeeds, `parse_pseudos_from_directory` fails with the
duplicate-element `InvalidInputError` (`ValueError`) if the parsed
records' element symbols contain a repetition, and with the
empty-parse `InvalidInputError` if no records were parsed. -/
theorem c5_duplicate_and_empty_rejected (pt : PClass) (ctor : Ctor) (dirpath : String)
    (entries : List (String × FSEntry)) (ps : List PseudoPotentialData)
    (hok : parseEntries pt ctor (resolveLevel dirpath entries).1
      (resolveLevel dirpath entries).2 = Except.ok ps) :
    ((¬ (ps.map (fun p => p.element)).Nodup) →
      parse_pseudos_from_directory pt ctor dirpath (FSEntry.dir entries) =
        Except.error (Err.duplicateElements (resolveLevel dirpath entries).1)) ∧
    (ps = [] →
      parse_pseudos_from_directory pt ctor dirpath (FSEntry.dir entries) =
        Except.error (Err.noParsedPseudos (resolveLevel dirpath entries).1)) := by
  constructor
  · intro hnd
    have hne : ps ≠ [] := by
      rintro rfl
      exact hnd (by simp)
    have hlen : ps.length ≠ (ps.map (fun p => p.element)).dedup.length := by
      have h := length_ne_dedup_of_not_nodup (ps.map (fun p => p.element)) hnd
      rw [List.length_map] at h
      exact h
    show parseResolved pt ctor (resolveLevel dirpath entries).1
      (resolveLevel dirpath entries).2 = _
    simp only [parseResolved, hok]
    rw [if_neg hne, if_pos hlen]
  · rintro rfl
    show parseResolved pt ctor (resolveLevel dirpath entries).1
      (resolveLevel dirpath entries).2 = _
    simp only [parseResolved, hok]
    simp

/-- Witness for C5: a directory with H.upf and H.vpf (both resolving
to element H) is rejected as duplicate, and an empty directory is
rejected as yielding no parsed records. -/
theorem c5_witness :
    parse_pseudos_from_directory pc ctorContentMd5 "/d" (FSEntry.dir entriesC5) =
      Except.error (Err.duplicateElements "/d") ∧
    parse_pseudos_from_directory pc ctorContentMd5 "/d" (FSEntry.dir []) =
      Except.error (Err.noParsedPseudos "/d") := by
  constructor
  · exact (c5_duplicate_and_empty_rejected pc ctorContentMd5 "/d" entriesC5
      [{ cls := pc, element := some "H", md5 := "a", nid := 0, is_stored := false },
       { cls := pc, element := some "H", md5 := "b", nid := 0, is_stored := false }]
      (by rfl)).1 (by decide)
  · exact (c5_duplicate_and_empty_rejected pc ctorContentMd5 "/d" [] [] (by rfl)).2 rfl

/-- C6: a sole directory entry that is itself a directory is descended
into exactly once — parsing the wrapper equals running the resolved
parse on the inner entries with the extended path — and every entry at
the resolved level must be a regular file: a subdirectory at that
level (a second nesting level) makes the call fail with the
not-a-file `InvalidInputError` once the entries listed before it have
parsed, rather than being descended into. -/
theorem c6_single_descent_rejects_nested (pt : PClass) (ctor : Ctor) (dirpath name : String)
    (inner : List (String × FSEntry)) :
    (parse_pseudos_from_directory pt ctor dirpath (FSEntry.dir [(name, FSEntry.dir inner)]) =
      parseResolved pt ctor (dirpath ++ "/" ++ name) inner) ∧
    (∀ (pre post : List (String × FSEntry)) (m : String)
        (inner2 : List (String × FSEntry)) (l : List PseudoPotentialData),
      inner = pre ++ (m, FSEntry.dir inner2) :: post →
      parseEntries pt ctor (dirpath ++ "/" ++ name) pre = Except.ok l →
      parse_pseudos_from_directory pt ctor dirpath (FSEntry.dir [(name, FSEntry.dir inner)]) =
        Except.error (Err.notAFile (dirpath ++ "/" ++ name))) := by
  constructor
  · rfl
  · intro pre post m inner2 l hin hpre
    subst hin
    have hent : parseEntries pt ctor (dirpath ++ "/" ++ name)
        (pre ++ (m, FSEntry.dir inner2) :: post) =
        Except.error (Err.notAFile (dirpath ++ "/" ++ name)) := by
      rw [parseEntries_append, hpre]
      rfl
    show parseResolved pt ctor (dirpath ++ "/" ++ name)
      (pre ++ (m, FSEntry.dir inner2) :: post) = _
    simp only [parseResolved, hent]

/-- Witness for C6: a directory whose sole entry wraps one parseable
file and one subdirectory fails with the not-a-file error at the
descended level. -/
theorem c6_witness :
    parse_pseudos_from_directory pc ctorContentMd5 "/d"
      (FSEntry.dir [("wrap", FSEntry.dir innerC6)]) =
      Except.error (Err.notAFile ("/d" ++ "/" ++ "wrap")) :=
  (c6_single_descent_rejects_nested pc ctorContentMd5 "/d" "wrap" innerC6).2
    [("H.upf", FSEntry.file "a")] [] "sub" []
    [{ cls := pc, element := some "H", md5 := "a", nid := 0, is_stored := false }]
    rfl (by rfl)

/-- C8: `add_nodes` fails with `TypeError` whenever any record of the
batch has a concrete class different from the family's accepted class
(the check is `type(node) is not self._pseudo_type`, strict equality),
including records whose class is a strict subclass of the accepted
class; the family state is untouched on that failure; and every
successful `add_nodes` preserves the invariant that all stored members
have exactly the accepted class. -/
theorem c8_strict_type_check (fam : Family) (nodes : List PseudoPotentialData)
    (n : PseudoPotentialData) :
    (fam.is_stored = true → n ∈ nodes → n.cls ≠ fam.pseudoType →
      add_nodes fam nodes = (fam, some Err.typeError)) ∧
    (fam.is_stored = true → subclassOf n.cls fam.pseudoType = true →
      n.cls ≠ fam.pseudoType →
      add_nodes fam [n] = (fam, some Err.typeError)) ∧
    (∀ fam' : Family, add_nodes fam nodes = (fam', none) →
      (∀ r ∈ fam.storedNodes, r.cls = fam.pseudoType) →
      ∀ r ∈ fam'.storedNodes, r.cls = fam.pseudoType) := by
  have key : ∀ (ns : List PseudoPotentialData), fam.is_stored = true → n ∈ ns →
      n.cls ≠ fam.pseudoType → add_nodes fam ns = (fam, some Err.typeError) := by
    intro ns hs hn hne
    unfold add_nodes
    rw [if_neg (by simp [hs])]
    have hany : ns.any (fun x => x.cls != fam.pseudoType) = true := by
      rw [List.any_eq_true]
      exact ⟨n, hn, by simp [hne]⟩
    rw [if_pos hany]
  refine ⟨key nodes, ?_, ?_⟩
  · intro hs _ hne
    exact key [n] hs (List.mem_singleton_self n) hne
  · intro fam' hok hinv r hr
    have hi := add_nodes_ok_inv fam nodes fam' hok
    rw [hi.1] at hr
    rcases List.mem_append.1 hr with h | h
    · exact hinv r h
    · exact hi.2 r h

/-- Witness for C8: `famB` accepts exactly `UpfData`; the record
`nSub`, whose class is a strict subclass of `UpfData`
(`subclassOf` holds but the classes differ), is rejected with
`TypeError` and the family is unchanged. -/
theorem c8_witness :
    subclassOf nSub.cls famB.pseudoType = true ∧
    nSub.cls ≠ famB.pseudoType ∧
    add_nodes famB [nSub] = (famB, some Err.typeError) := by
  refine ⟨by decide, by decide, ?_⟩
  exact (c8_strict_type_check famB [nSub] nSub).2.1 (by decide) (by decide) (by decide)

theorem get_pseudo_fst_fields (fam : Family) (e : String) :
    ((get_pseudo fam e).1).storedNodes = fam.storedNodes ∧
    ((get_pseudo fam e).1).label = fam.label ∧
    ((get_pseudo fam e).1).pseudoType = fam.pseudoType := by
  simp only [get_pseudo]
  cases dictFind (pseudosDict (forcePseudos fam)) (some e) with
  | some p => exact ⟨rfl, rfl, rfl⟩
  | none =>
      cases queryElement (forcePseudos fam) e with
      | nil => exact ⟨rfl, rfl, rfl⟩
      | cons x t =>
          cases t with
          | nil => exact ⟨rfl, rfl, rfl⟩
          | cons y t2 => exact ⟨rfl, rfl, rfl⟩

theorem pseudosDict_get_pseudo_fst (fam : Family) (e : String) :
    pseudosDict ((get_pseudo fam e).1) = pseudosDict fam ∨
    (dictFind (pseudosDict fam) (some e) = none ∧
      ∃ p, queryElement fam e = [p] ∧
        pseudosDict ((get_pseudo fam e).1) = dictInsert (some e) p (pseudosDict fam)) := by
  simp only [get_pseudo]
  cases hf : dictFind (pseudosDict (forcePseudos fam)) (some e) with
  | some p => exact Or.inl rfl
  | none =>
      cases hq : queryElement (forcePseudos fam) e with
      | nil => exact Or.inl rfl
      | cons x t =>
          cases t with
          | nil =>
              right
              rw [pseudosDict_force] at hf
              rw [queryElement_force] at hq
              exact ⟨hf, x, hq, rfl⟩
          | cons y t2 => exact Or.inl rfl

theorem get_pseudo_snd_congr_find (g f : Family) (e : String)
    (hfind : dictFind (pseudosDict g) (some e) = dictFind (pseudosDict f) (some e))
    (hq : queryElement g e = queryElement f e)
    (hl : g.label = f.label) :
    (get_pseudo g e).2 = (get_pseudo f e).2 := by
  simp only [get_pseudo, pseudosDict_force, queryElement_force]
  rw [hfind, hq, hl]
  cases dictFind (pseudosDict f) (some e) with
  | some p => rfl
  | none =>
      cases queryElement f e with
      | nil => rfl
      | cons x t =>
          cases t with
          | nil => rfl
          | cons y t2 => rfl

theorem get_pseudo_stable (fam : Family) (e e2 : String) :
    (get_pseudo ((get_pseudo fam e).1) e2).2 = (get_pseudo fam e2).2 := by
  have hA := get_pseudo_fst_fields fam e
  have hq : queryElement ((get_pseudo fam e).1) e2 = queryElement fam e2 := by
    unfold queryElement
    rw [hA.1, hA.2.2]
  rcases pseudosDict_get_pseudo_fst fam e with hc | ⟨hnone, p, hqe, hc⟩
  · exact get_pseudo_snd_congr_find _ _ e2 (by rw [hc]) hq hA.2.1
  · by_cases he : e2 = e
    · subst he
      have hfind1 : dictFind (pseudosDict ((get_pseudo fam e2).1)) (some e2) = some p := by
        rw [hc]
        exact dictFind_insert_self (some e2) p _
      have hL := get_pseudo_cache_hit ((get_pseudo fam e2).1) e2 p hfind1
      rw [hL]
      show Except.ok p = (get_pseudo fam e2).2
      simp only [get_pseudo, pseudosDict_force, queryElement_force, hnone, hqe]
    · have hfind : dictFind (pseudosDict ((get_pseudo fam e).1)) (some e2) =
          dictFind (pseudosDict fam) (some e2) := by
        rw [hc]
        exact dictFind_insert_ne (fun hh => he (Option.some.inj hh).symm) p _
      exact get_pseudo_snd_congr_find _ _ e2 hfind hq hA.2.1

theorem dictFind_insert_ne_none {κ α : Type} [DecidableEq κ] (k k' : κ) (v : α)
    (d : List (κ × α)) (h : dictFind (dictInsert k' v d) k ≠ none) :
    k = k' ∨ dictFind d k ≠ none := by
  by_cases hk : k = k'
  · exact Or.inl hk
  · right
    rw [dictFind_insert_ne (fun hh => hk hh.symm) v d] at h
    exact h

theorem dictFind_ne_none_of_mem {κ α : Type} [DecidableEq κ] (kv : κ × α) :
    ∀ d : List (κ × α), kv ∈ d → dictFind d kv.1 ≠ none := by
  intro d
  induction d with
  | nil => intro h; cases h
  | cons hd t ih =>
      obtain ⟨k1, v1⟩ := hd
      intro hmem
      by_cases hk : k1 = kv.1
      · simp [dictFind, hk]
      · rcases List.mem_cons.1 hmem with h | h
        · rw [h] at hk
          simp at hk
        · simp only [dictFind, hk, if_false]
          exact ih h

theorem getPseudosLoop_preserve (k : String) :
    ∀ (xs : List String) (fam : Family) (acc : List (String × PseudoPotentialData))
      (fam' : Family) (m : List (String × PseudoPotentialData)),
      getPseudosLoop fam xs acc = (fam', Except.ok m) → k ∉ xs →
      dictFind m k = dictFind acc k := by
  intro xs
  induction xs with
  | nil =>
      intro fam acc fam' m h hk
      have hm : acc = m := Except.ok.inj (congrArg Prod.snd h)
      rw [hm]
  | cons x rest ih =>
      intro fam acc fam' m h hk
      have hkx : k ≠ x := fun hh => hk (hh ▸ List.mem_cons_self x rest)
      have hkr : k ∉ rest := fun hh => hk (List.mem_cons_of_mem x hh)
      cases hx : get_pseudo fam x with
      | mk fam1 res =>
          cases res with
          | error err =>
              simp only [getPseudosLoop, hx] at h
              cases h
          | ok p =>
              simp only [getPseudosLoop, hx] at h
              rw [ih fam1 (dictInsert x p acc) fam' m h hkr]
              exact dictFind_insert_ne (fun hh => hkx hh.symm) p acc

theorem getPseudosLoop_spec (fam0 : Family) :
    ∀ (xs : List String) (fam : Family) (acc : List (String × PseudoPotentialData)),
      (∀ e2, (get_pseudo fam e2).2 = (get_pseudo fam0 e2).2) →
      (∀ (fam' : Family) (err : Err),
        getPseudosLoop fam xs acc = (fam', Except.error err) →
        ∃ e ∈ xs, (get_pseudo fam0 e).2 = Except.error err) ∧
      (∀ (fam' : Family) (m : List (String × PseudoPotentialData)),
        getPseudosLoop fam xs acc = (fam', Except.ok m) →
        (∀ e ∈ xs, ∃ p, dictFind m e = some p ∧ (get_pseudo fam0 e).2 = Except.ok p) ∧
        (∀ k, dictFind m k ≠ none → dictFind acc k ≠ none ∨ k ∈ xs)) := by
  intro xs
  induction xs with
  | nil =>
      intro fam acc hstable
      constructor
      · intro fam' err h
        cases h
      · intro fam' m h
        have hm : acc = m := Except.ok.inj (congrArg Prod.snd h)
        constructor
        · intro e he
          cases he
        · intro k hk
          rw [← hm] at hk
          exact Or.inl hk
  | cons x rest ih =>
      intro fam acc hstable
      cases hx : get_pseudo fam x with
      | mk fam1 res =>
          cases res with
          | error err =>
              constructor
              · intro fam' err2 h
                simp only [getPseudosLoop, hx] at h
                have herr : err = err2 := by
                  have := congrArg Prod.snd h
                  simpa using this
                refine ⟨x, List.mem_cons_self x rest, ?_⟩
                rw [← hstable x, ← herr]
                have := congrArg Prod.snd hx
                simpa using this
              · intro fam' m h
                simp only [getPseudosLoop, hx] at h
                cases h
          | ok p =>
              have hstable1 : ∀ e2, (get_pseudo fam1 e2).2 = (get_pseudo fam0 e2).2 := by
                intro e2
                have hst := get_pseudo_stable fam x e2
                rw [hx] at hst
                exact (show (get_pseudo fam1 e2).2 = (get_pseudo fam e2).2 from hst).trans
                  (hstable e2)
              have ihs := ih fam1 (dictInsert x p acc) hstable1
              have hgx : (get_pseudo fam0 x).2 = Except.ok p := by
                rw [← hstable x]
                have := congrArg Prod.snd hx
                simpa using this
              constructor
              · intro fam' err h
                simp only [getPseudosLoop, hx] at h
                rcases ihs.1 fam' err h with ⟨e, he, hee⟩
                exact ⟨e, List.mem_cons_of_mem x he, hee⟩
              · intro fam' m h
                simp only [getPseudosLoop, hx] at h
                have hres := ihs.2 fam' m h
                constructor
                · intro e he
                  rcases List.mem_cons.1 he with rfl | he2
                  · by_cases hxr : e ∈ rest
                    · exact hres.1 e hxr
                    · refine ⟨p, ?_, hgx⟩
                      rw [getPseudosLoop_preserve e rest fam1 (dictInsert e p acc) fam' m h hxr]
                      exact dictFind_insert_self e p acc
                  · exact hres.1 e he2
                · intro k hk
                  rcases hres.2 k hk with h1 | h1
                  · rcases dictFind_insert_ne_none k x p acc h1 with h2 | h2
                    · exact Or.inr (h2 ▸ List.mem_cons_self x rest)
                    · exact Or.inl h2
                  · exact Or.inr (List.mem_cons_of_mem x h1)

/-- C9: exactly one of the keyword arguments `elements` / `structure`
must be supplied to `get_pseudos` — the call fails with the
`InvalidInputError` for both-given and for neither-given; a list or
tuple of elements (or the kind symbols of a supplied structure) is
handed to the lookup dict comprehension; a failing comprehension
propagates the lookup error of one of the requested elements, and a
successful one returns a dict that maps every requested element to the
result of `get_pseudo` on that element, and contains only requested
elements. -/
theorem c9_exactly_one_keyword :
    (∀ (fam : Family) (a : ElementsArg) (s : StructureData),
      get_pseudos fam (some a) (some s) = (fam, Except.error Err.bothKeywords)) ∧
    (∀ fam : Family, get_pseudos fam none none = (fam, Except.error Err.neitherKeyword)) ∧
    (∀ (fam : Family) (xs : List String),
      get_pseudos fam (some (ElementsArg.pylist xs)) none = getPseudosLoop fam xs [] ∧
      get_pseudos fam (some (ElementsArg.pytuple xs)) none = getPseudosLoop fam xs []) ∧
    (∀ (fam : Family) (s : StructureData),
      get_pseudos fam none (some s) =
        getPseudosLoop fam (s.kinds.map (fun k => k.symbol)) []) ∧
    (∀ (fam : Family) (xs : List String) (fam' : Family) (err : Err),
      getPseudosLoop fam xs [] = (fam', Except.error err) →
      ∃ e ∈ xs, (get_pseudo fam e).2 = Except.error err) ∧
    (∀ (fam : Family) (xs : List String) (fam' : Family)
        (m : List (String × PseudoPotentialData)),
      getPseudosLoop fam xs [] = (fam', Except.ok m) →
      (∀ e ∈ xs, ∃ p, dictFind m e = some p ∧ (get_pseudo fam e).2 = Except.ok p) ∧
      (∀ kv ∈ m, kv.1 ∈ xs)) := by
  refine ⟨fun fam a s => rfl, fun fam => rfl, fun fam xs => ⟨rfl, rfl⟩, fun fam s => rfl,
    ?_, ?_⟩
  · intro fam xs fam' err h
    exact ((getPseudosLoop_spec fam xs fam [] (fun e2 => rfl)).1 fam' err h)
  · intro fam xs fam' m h
    have hs := (getPseudosLoop_spec fam xs fam [] (fun e2 => rfl)).2 fam' m h
    refine ⟨hs.1, ?_⟩
    intro kv hkv
    rcases hs.2 kv.1 (dictFind_ne_none_of_mem kv m hkv) with h1 | h1
    · exact absurd rfl h1
    · exact h1

/-- Witness for C9 at concrete inputs: both-given and neither-given
fail, the dict of a singleton lookup on `famW` maps H to the stored
hydrogen member, and the propagated failure for a missing element is
the `NotFoundError` of that element. -/
theorem c9_exactly_one_keyword_witness :
    get_pseudos famW (some (ElementsArg.pylist ["H"])) (some structW) =
      (famW, Except.error Err.bothKeywords) ∧
    get_pseudos famW none none = (famW, Except.error Err.neitherKeyword) ∧
    dictFind [("H", pHW)] "H" = some pHW ∧
    (get_pseudo famW "H").2 = Except.ok pHW ∧
    (get_pseudo famEmpty "H").2 = Except.error (Err.notFound "w9" "H") := by
  refine ⟨c9_exactly_one_keyword.1 famW (ElementsArg.pylist ["H"]) structW, c9_exactly_one_keyword.2.1 famW, ?_⟩
  have hok := (c9_exactly_one_keyword.2.2.2.2.2 famW ["H"] famW [("H", pHW)] (by rfl)).1 "H"
    (List.mem_singleton_self "H")
  rcases hok with ⟨p, hf, hg⟩
  have hp : p = pHW := by
    have h1 : dictFind [("H", pHW)] "H" = some pHW := rfl
    rw [hf] at h1
    exact (Option.some.inj h1)
  subst hp
  refine ⟨hf, hg, ?_⟩
  have herr := c9_exactly_one_keyword.2.2.2.2.1 famEmpty ["H"] famEmpty (Err.notFound "w9" "H") (by rfl)
  rcases herr with ⟨e, he, hee⟩
  have he2 : e = "H" := List.mem_singleton.1 he
  subst he2
  exact hee
